import Mathlib

/-!
Shallow embedding of the interval-containment engine of
`src/5/foodb/src/main.rs` (the `ascii_to_u64` numeric parser, the
`ClosedInt` interval type with its `new` / `from_str` / `merge` /
`contains` / `Ord` operations, and the `FoodbProblem` construction and
query logic), together with theorems settling the specification claims.

Modelling conventions:
* Rust byte slices `&[u8]` become `List Nat` (each element an ASCII code).
* Rust `u64` arithmetic wraps, so every `+`, `*` and `pow` of the source
  is followed by an explicit `% U64` with `U64 = 2 ^ 64`.
* `Result<T, E>` becomes `Except E T`.
* A function that can call `panic!` (or `.unwrap()` a possible error)
  returns `Option`; the value `none` models the aborted (panicking) run.
-/

/-- Error value of the numeric parser (Rust `struct InvalidAsciiU64`). -/
inductive InvalidAsciiU64
  | mk
deriving DecidableEq

/-- Error value of interval construction (Rust `struct InvalidClosedInt`). -/
inductive InvalidClosedInt
  | mk
deriving DecidableEq

/-- Error value of interval merging (Rust `struct UnmergableInts`). -/
inductive UnmergableInts
  | mk
deriving DecidableEq

instance {ε α : Type} [DecidableEq ε] [DecidableEq α] : DecidableEq (Except ε α) := fun x y =>
  match x, y with
  | Except.ok a, Except.ok b =>
    if h : a = b then isTrue (by rw [h])
    else isFalse fun hc => h (Except.noConfusion hc id)
  | Except.error a, Except.error b =>
    if h : a = b then isTrue (by rw [h])
    else isFalse fun hc => h (Except.noConfusion hc id)
  | Except.ok _, Except.error _ => isFalse fun hc => Except.noConfusion hc
  | Except.error _, Except.ok _ => isFalse fun hc => Except.noConfusion hc

/-- Modulus of Rust `u64` arithmetic. -/
def U64 : Nat := 2 ^ 64

/-- Loop of `ascii_to_u64`: iterate over the remaining bytes, keeping the
original slice length `len`, the current index `i` and the accumulator
`res`; a non-digit byte aborts with an error, a digit contributes
`val * 10 ^ (len - i - 1)` with wrapping `u64` arithmetic. -/
def asciiToU64Loop (len : Nat) : Nat → Nat → List Nat → Except InvalidAsciiU64 Nat
  | _, res, [] => Except.ok res
  | i, res, c :: rest =>
    if c < 48 ∨ 57 < c then Except.error InvalidAsciiU64.mk
    else asciiToU64Loop len (i + 1) ((res + (c - 48) * (10 ^ (len - i - 1) % U64) % U64) % U64) rest

/-- Rust `fn ascii_to_u64(bytes: &[u8]) -> Result<u64, InvalidAsciiU64>`. -/
def ascii_to_u64 (bytes : List Nat) : Except InvalidAsciiU64 Nat :=
  asciiToU64Loop bytes.length 0 0 bytes

/-- Rust `struct ClosedInt { low: u64, high: u64 }`. -/
structure ClosedInt where
  low : Nat
  high : Nat
deriving DecidableEq

/-- Rust `ClosedInt::new`: reject `low > high`, otherwise build the pair. -/
def ClosedInt.new (low high : Nat) : Except InvalidClosedInt ClosedInt :=
  if low > high then Except.error InvalidClosedInt.mk
  else Except.ok { low := low, high := high }

/-- Index scan at the start of `ClosedInt::from_str`: find the first `'-'`
(byte 45) and return the bytes before it and the bytes after it, or `none`
when the slice holds no `'-'` at all. -/
def splitAtDash : List Nat → Option (List Nat × List Nat)
  | [] => none
  | c :: rest =>
    if c = 45 then some ([], rest)
    else
      match splitAtDash rest with
      | none => none
      | some (l, r) => some (c :: l, r)

/-- Rust `ClosedInt::from_str`: split at the first `'-'`, parse both sides
with `ascii_to_u64`, then defer to `ClosedInt::new`. -/
def ClosedInt.from_str (txt : List Nat) : Except InvalidClosedInt ClosedInt :=
  match splitAtDash txt with
  | none => Except.error InvalidClosedInt.mk
  | some (pre, post) =>
    match ascii_to_u64 pre with
    | Except.error _ => Except.error InvalidClosedInt.mk
    | Except.ok low =>
      match ascii_to_u64 post with
      | Except.error _ => Except.error InvalidClosedInt.mk
      | Except.ok high => ClosedInt.new low high

/-- Rust `ClosedInt::merge`, written exactly as the source has it: the
error branch fires when `self.high < other.low || other.low < self.high`,
and the success branch is `ClosedInt::new(min(self.low, other.low),
max(self.low, other.high)).unwrap()`; the outer `none` models the panic of
`.unwrap()` on an error. -/
def ClosedInt.merge (self other : ClosedInt) : Option (Except UnmergableInts ClosedInt) :=
  if self.high < other.low ∨ other.low < self.high then
    some (Except.error UnmergableInts.mk)
  else
    match ClosedInt.new (min self.low other.low) (max self.low other.high) with
    | Except.ok c => some (Except.ok c)
    | Except.error _ => none

/-- Rust `ClosedInt::contains`: `num >= self.low && num <= self.high`. -/
def ClosedInt.contains (self : ClosedInt) (num : Nat) : Bool :=
  decide (num ≥ self.low) && decide (num ≤ self.high)

/-- Rust `impl Ord for ClosedInt`: `self.low.cmp(&other.low)`, spelled out
as the three-way comparison of the `low` fields.  Rust `x < y` holds iff
`x.cmp y = Ordering.lt`. -/
def ClosedInt.cmp (self other : ClosedInt) : Ordering :=
  if self.low < other.low then Ordering.lt
  else if self.low = other.low then Ordering.eq
  else Ordering.gt

/-- Rust `fn bruteforce_interval`: linear scan, true on the first interval
containing `val`. -/
def bruteforce_interval (val : Nat) : List ClosedInt → Bool
  | [] => false
  | i :: rest => if i.contains val then true else bruteforce_interval val rest

/-- Rust `struct FoodbProblem { intervals: Vec<ClosedInt>, to_check: Vec<u64> }`. -/
structure FoodbProblem where
  intervals : List ClosedInt
  to_check : List Nat
deriving DecidableEq

/-- First loop of `FoodbProblem::new_from_lines`: read interval lines
until a blank line (returning the remaining lines) or the end of input;
a line that fails `ClosedInt::from_str` panics (modelled as `none`). -/
def parseIntervalLines : List (List Nat) → Option (List ClosedInt × List (List Nat))
  | [] => some ([], [])
  | line :: rest =>
    if line.length = 0 then some ([], rest)
    else
      match ClosedInt.from_str line with
      | Except.ok x =>
        match parseIntervalLines rest with
        | none => none
        | some (ints, rem) => some (x :: ints, rem)
      | Except.error _ => none

/-- Second loop of `FoodbProblem::new_from_lines`: read query id lines; a
blank line is accepted only as the very last line (the source peeks and
panics otherwise), and a line that fails `ascii_to_u64` panics. -/
def parseIdLines : List (List Nat) → Option (List Nat)
  | [] => some []
  | line :: rest =>
    if line.length = 0 then
      if rest.isEmpty then some [] else none
    else
      match ascii_to_u64 line with
      | Except.ok x =>
        match parseIdLines rest with
        | none => none
        | some ids => some (x :: ids)
      | Except.error _ => none

/-- Insertion step of the stable sort: place `a` after every element
whose `low` is strictly smaller, before the first element whose `low` is
greater or equal. -/
def insertByLow (a : ClosedInt) : List ClosedInt → List ClosedInt
  | [] => [a]
  | b :: rest => if b.low < a.low then b :: insertByLow a rest else a :: b :: rest

/-- Rust `ints.sort()` sorts stably by `Ord for ClosedInt`, i.e. by the
`low` field; modelled as the stable insertion sort by `low`, which
computes the same list as any stable sort by `low`. -/
def sortByLow : List ClosedInt → List ClosedInt
  | [] => []
  | a :: rest => insertByLow a (sortByLow rest)

/-- Rust `FoodbProblem::new_from_lines`: parse the interval block, then
the id block, sort the intervals and build the problem; `none` models a
panic in either parsing loop. -/
def FoodbProblem.new_from_lines (lines : List (List Nat)) : Option FoodbProblem :=
  match parseIntervalLines lines with
  | none => none
  | some (ints, rest) =>
    match parseIdLines rest with
    | none => none
    | some ids => some { intervals := sortByLow ints, to_check := ids }

/-- Counting loop of `main` (and of the embedded `test_load` test): sum
over the queries, adding 1 for each query some interval contains. -/
def countContained (p : FoodbProblem) : Nat :=
  p.to_check.foldl (fun res c => res + if bruteforce_interval c p.intervals then 1 else 0) 0

/-- Decimal value of a byte list read as digits, most significant first. -/
def decFrom (a : Nat) (bs : List Nat) : Nat :=
  bs.foldl (fun acc c => acc * 10 + (c - 48)) a

/-- Decimal value of a digit-byte list. -/
def decimalValue (bs : List Nat) : Nat := decFrom 0 bs

/-- Exact (unwrapped) value accumulated by `asciiToU64Loop` from index `i`
of a slice of original length `len`. -/
def polyVal (len : Nat) : Nat → List Nat → Nat
  | _, [] => 0
  | i, c :: rest => (c - 48) * 10 ^ (len - i - 1) + polyVal len (i + 1) rest

/-- A byte is an ASCII decimal digit. -/
def isDigitByte (c : Nat) : Prop := 48 ≤ c ∧ c ≤ 57

instance (c : Nat) : Decidable (isDigitByte c) := by
  unfold isDigitByte; infer_instance

/-- Little-endian list of ASCII digit bytes of `n` (empty for 0). -/
def natDigitsLE (n : Nat) : List Nat :=
  if h : n = 0 then []
  else (n % 10 + 48) :: natDigitsLE (n / 10)
termination_by n
decreasing_by exact Nat.div_lt_self (Nat.pos_of_ne_zero h) (by omega)

/-- Canonical ASCII decimal representation of `n` (leading digit first). -/
def natToAscii (n : Nat) : List Nat :=
  if n = 0 then [48] else (natDigitsLE n).reverse

/-- The line sequence of the embedded `test_load` test:
`3-5`, `10-14`, `16-20`, `12-18`, a blank line, then
`1`, `5`, `8`, `11`, `17`, `32`. -/
def testLines : List (List Nat) :=
  [[51, 45, 53], [49, 48, 45, 49, 52], [49, 54, 45, 50, 48], [49, 50, 45, 49, 56], [],
   [49], [53], [56], [49, 49], [49, 55], [51, 50]]

theorem U64_pos : 0 < U64 := by
  unfold U64
  exact pow_pos (by omega) 64

theorem asciiToU64Loop_error_iff (bs : List Nat) : ∀ len i res,
    (asciiToU64Loop len i res bs = Except.error InvalidAsciiU64.mk ↔ ∃ c ∈ bs, ¬ isDigitByte c) := by
  induction bs with
  | nil =>
    intro len i res
    simp [asciiToU64Loop]
  | cons c rest ih =>
    intro len i res
    by_cases hc : c < 48 ∨ 57 < c
    · simp only [asciiToU64Loop, if_pos hc]
      constructor
      · intro _
        exact ⟨c, List.mem_cons_self c rest, by unfold isDigitByte; omega⟩
      · intro _
        trivial
    · simp only [asciiToU64Loop, if_neg hc]
      rw [ih]
      constructor
      · rintro ⟨d, hd, hdig⟩
        exact ⟨d, List.mem_cons_of_mem c hd, hdig⟩
      · rintro ⟨d, hd, hdig⟩
        rcases List.mem_cons.mp hd with h1 | h2
        · exfalso
          apply hdig
          subst h1
          unfold isDigitByte
          omega
        · exact ⟨d, h2, hdig⟩

theorem asciiToU64Loop_ok (bs : List Nat) : ∀ len i res, res < U64 →
    (∀ c ∈ bs, isDigitByte c) →
    asciiToU64Loop len i res bs = Except.ok ((res + polyVal len i bs) % U64) := by
  induction bs with
  | nil =>
    intro len i res hres _
    simp only [asciiToU64Loop, polyVal, Nat.add_zero]
    rw [Nat.mod_eq_of_lt hres]
  | cons c rest ih =>
    intro len i res hres hdig
    have hc : isDigitByte c := hdig c (List.mem_cons_self c rest)
    have hcond : ¬ (c < 48 ∨ 57 < c) := by
      unfold isDigitByte at hc
      omega
    simp only [asciiToU64Loop, if_neg hcond]
    rw [ih len (i + 1) _ (Nat.mod_lt _ U64_pos)
      (fun d hd => hdig d (List.mem_cons_of_mem c hd))]
    congr 1
    have h2 : (c - 48) * (10 ^ (len - i - 1) % U64) % U64 ≡ (c - 48) * 10 ^ (len - i - 1) [MOD U64] :=
      (Nat.mod_modEq _ _).trans (Nat.ModEq.mul_left _ (Nat.mod_modEq _ _))
    have h4 : (res + (c - 48) * (10 ^ (len - i - 1) % U64) % U64) % U64 ≡
        res + (c - 48) * 10 ^ (len - i - 1) [MOD U64] :=
      (Nat.mod_modEq _ _).trans (Nat.ModEq.add_left res h2)
    have h5 := Nat.ModEq.add_right (polyVal len (i + 1) rest) h4
    have h6 : ((res + (c - 48) * (10 ^ (len - i - 1) % U64) % U64) % U64 +
          polyVal len (i + 1) rest) % U64 =
        (res + (c - 48) * 10 ^ (len - i - 1) + polyVal len (i + 1) rest) % U64 := h5
    rw [h6, polyVal, Nat.add_assoc]

theorem ascii_to_u64_error_iff (bs : List Nat) :
    ascii_to_u64 bs = Except.error InvalidAsciiU64.mk ↔ ∃ c ∈ bs, ¬ isDigitByte c := by
  unfold ascii_to_u64
  exact asciiToU64Loop_error_iff bs bs.length 0 0

theorem decFrom_cons (a c : Nat) (rest : List Nat) :
    decFrom a (c :: rest) = decFrom (a * 10 + (c - 48)) rest := rfl

theorem decFrom_eq (bs : List Nat) : ∀ a, decFrom a bs = a * 10 ^ bs.length + decFrom 0 bs := by
  induction bs with
  | nil =>
    intro a
    simp [decFrom]
  | cons c rest ih =>
    intro a
    rw [decFrom_cons, ih (a * 10 + (c - 48)), decFrom_cons 0, ih (0 * 10 + (c - 48))]
    simp only [List.length_cons]
    ring

theorem decimalValue_cons (c : Nat) (rest : List Nat) :
    decimalValue (c :: rest) = (c - 48) * 10 ^ rest.length + decimalValue rest := by
  unfold decimalValue
  rw [decFrom_cons, decFrom_eq]
  simp

theorem polyVal_eq_decimalValue (bs : List Nat) : ∀ len i, len = i + bs.length →
    polyVal len i bs = decimalValue bs := by
  induction bs with
  | nil =>
    intro len i _
    simp [polyVal, decimalValue, decFrom]
  | cons c rest ih =>
    intro len i hlen
    simp only [List.length_cons] at hlen
    have he : len - i - 1 = rest.length := by omega
    rw [polyVal, he, ih len (i + 1) (by omega), decimalValue_cons]

theorem ascii_to_u64_eq_ok (bs : List Nat) (h : ∀ c ∈ bs, isDigitByte c) :
    ascii_to_u64 bs = Except.ok (decimalValue bs % U64) := by
  unfold ascii_to_u64
  rw [asciiToU64Loop_ok bs bs.length 0 0 U64_pos h, Nat.zero_add,
    polyVal_eq_decimalValue bs bs.length 0 (by omega)]

theorem natDigitsLE_digits (n : Nat) : ∀ c ∈ natDigitsLE n, isDigitByte c := by
  induction n using Nat.strong_induction_on with
  | _ n ih =>
    by_cases h : n = 0
    · subst h
      unfold natDigitsLE
      simp
    · unfold natDigitsLE
      rw [dif_neg h]
      intro c hc
      rcases List.mem_cons.mp hc with h1 | h2
      · subst h1
        unfold isDigitByte
        omega
      · exact ih (n / 10) (Nat.div_lt_self (Nat.pos_of_ne_zero h) (by omega)) c h2

theorem natToAscii_digits (n : Nat) : ∀ c ∈ natToAscii n, isDigitByte c := by
  unfold natToAscii
  by_cases h : n = 0
  · rw [if_pos h]
    intro c hc
    rw [List.mem_singleton] at hc
    subst hc
    unfold isDigitByte
    omega
  · rw [if_neg h]
    intro c hc
    exact natDigitsLE_digits n c (List.mem_reverse.mp hc)

theorem natToAscii_no_dash (n : Nat) : 45 ∉ natToAscii n := by
  intro hm
  have hd := natToAscii_digits n 45 hm
  unfold isDigitByte at hd
  omega

theorem decimalValue_append_digit (l : List Nat) (c : Nat) :
    decimalValue (l ++ [c]) = decimalValue l * 10 + (c - 48) := by
  unfold decimalValue decFrom
  rw [List.foldl_append]
  rfl

theorem decimalValue_natDigitsLE (n : Nat) : decimalValue ((natDigitsLE n).reverse) = n := by
  induction n using Nat.strong_induction_on with
  | _ n ih =>
    by_cases h : n = 0
    · subst h
      unfold natDigitsLE
      simp [decimalValue, decFrom]
    · unfold natDigitsLE
      rw [dif_neg h, List.reverse_cons, decimalValue_append_digit,
        ih (n / 10) (Nat.div_lt_self (Nat.pos_of_ne_zero h) (by omega))]
      omega

theorem decimalValue_natToAscii (n : Nat) : decimalValue (natToAscii n) = n := by
  unfold natToAscii
  by_cases h : n = 0
  · rw [if_pos h, h]
    simp [decimalValue, decFrom]
  · rw [if_neg h]
    exact decimalValue_natDigitsLE n

theorem splitAtDash_append (l r : List Nat) (hl : 45 ∉ l) :
    splitAtDash (l ++ 45 :: r) = some (l, r) := by
  induction l with
  | nil => simp [splitAtDash]
  | cons c rest ih =>
    have hc : ¬ c = 45 := fun hc => hl (hc ▸ List.mem_cons_self c rest)
    have hrest : 45 ∉ rest := fun hm => hl (List.mem_cons_of_mem c hm)
    simp only [List.cons_append, splitAtDash, if_neg hc, List.append_eq, ih hrest]

theorem splitAtDash_eq (txt : List Nat) :
    splitAtDash txt =
      if 45 ∈ txt then
        some (txt.takeWhile (fun c => c != 45), (txt.dropWhile (fun c => c != 45)).tail)
      else none := by
  induction txt with
  | nil => simp [splitAtDash]
  | cons c rest ih =>
    by_cases hc : c = 45
    · subst hc
      simp [splitAtDash, List.takeWhile, List.dropWhile]
    · have hne : (c != 45) = true := by simp [hc]
      simp only [splitAtDash, if_neg hc, ih, List.takeWhile_cons, List.dropWhile_cons, hne,
        if_true, List.mem_cons]
      by_cases hm : 45 ∈ rest
      · simp [hm, hc, Ne.symm hc]
      · simp [hm, hc, Ne.symm hc]

theorem from_str_canonical (a b : Nat) (ha : a < U64) (hb : b < U64) :
    ClosedInt.from_str (natToAscii a ++ 45 :: natToAscii b) = ClosedInt.new a b := by
  unfold ClosedInt.from_str
  rw [splitAtDash_append (natToAscii a) (natToAscii b) (natToAscii_no_dash a)]
  simp only [ascii_to_u64_eq_ok (natToAscii a) (natToAscii_digits a),
    ascii_to_u64_eq_ok (natToAscii b) (natToAscii_digits b),
    decimalValue_natToAscii, Nat.mod_eq_of_lt ha, Nat.mod_eq_of_lt hb]

theorem mem_insertByLow (a x : ClosedInt) (l : List ClosedInt) :
    x ∈ insertByLow a l ↔ x = a ∨ x ∈ l := by
  induction l with
  | nil => simp [insertByLow]
  | cons b rest ih =>
    unfold insertByLow
    by_cases hc : b.low < a.low
    · rw [if_pos hc]
      simp only [List.mem_cons, ih]
      tauto
    · rw [if_neg hc]
      simp only [List.mem_cons]

theorem insertByLow_pairwise (a : ClosedInt) (l : List ClosedInt)
    (h : List.Pairwise (fun x y : ClosedInt => x.low ≤ y.low) l) :
    List.Pairwise (fun x y : ClosedInt => x.low ≤ y.low) (insertByLow a l) := by
  induction l with
  | nil => simp [insertByLow]
  | cons b rest ih =>
    rw [List.pairwise_cons] at h
    obtain ⟨hb, hrest⟩ := h
    unfold insertByLow
    by_cases hc : b.low < a.low
    · rw [if_pos hc, List.pairwise_cons]
      constructor
      · intro x hx
        rcases (mem_insertByLow a x rest).mp hx with h1 | h2
        · subst h1
          omega
        · exact hb x h2
      · exact ih hrest
    · rw [if_neg hc, List.pairwise_cons]
      constructor
      · intro x hx
        rcases List.mem_cons.mp hx with h1 | h2
        · subst h1
          omega
        · exact le_trans (by omega) (hb x h2)
      · exact List.Pairwise.cons hb hrest
  
theorem sortByLow_pairwise (l : List ClosedInt) :
    List.Pairwise (fun x y : ClosedInt => x.low ≤ y.low) (sortByLow l) := by
  induction l with
  | nil => simp [sortByLow]
  | cons a rest ih => exact insertByLow_pairwise a (sortByLow rest) ih

theorem parseIntervalLines_aborts (bad : List Nat) (rest : List (List Nat))
    (hbadlen : bad.length ≠ 0)
    (hbad : ClosedInt.from_str bad = Except.error InvalidClosedInt.mk) :
    ∀ good : List (List Nat),
      (∀ l ∈ good, l.length ≠ 0 ∧ ∃ ci, ClosedInt.from_str l = Except.ok ci) →
      parseIntervalLines (good ++ bad :: rest) = none := by
  intro good
  induction good with
  | nil =>
    intro _
    simp only [List.nil_append, parseIntervalLines, if_neg hbadlen, hbad]
  | cons l gl ih =>
    intro hgood
    obtain ⟨hlen, ci, hok⟩ := hgood l (List.mem_cons_self l gl)
    have htail := ih (fun l2 hl2 => hgood l2 (List.mem_cons_of_mem l hl2))
    simp only [List.cons_append, parseIntervalLines, if_neg hlen, hok, List.append_eq, htail]

theorem new_error_iff (lo hi : Nat) :
    ClosedInt.new lo hi = Except.error InvalidClosedInt.mk ↔ hi < lo := by
  unfold ClosedInt.new
  by_cases h : lo > hi
  · simp [h]
  · simp [h]

theorem from_str_split (txt pre post : List Nat) (h : splitAtDash txt = some (pre, post)) :
    ClosedInt.from_str txt =
      match ascii_to_u64 pre with
      | Except.error _ => Except.error InvalidClosedInt.mk
      | Except.ok low =>
        match ascii_to_u64 post with
        | Except.error _ => Except.error InvalidClosedInt.mk
        | Except.ok high => ClosedInt.new low high := by
  unfold ClosedInt.from_str
  rw [h]

/-- C1: the source's `ClosedInt::merge` contradicts the claimed merge
contract.  Its branch condition `self.high < other.low || other.low <
self.high` holds whenever `other.low ≠ self.high`, so the plainly
overlapping intervals `[1,5]` and `[3,7]` (both contain 4) — which the
claim says must merge into `[1,7]` — take the error branch and return
`UnmergableInts`; even an interval fails to merge with itself. -/
theorem merge_defect_eval :
    ClosedInt.contains ⟨1, 5⟩ 4 = true ∧ ClosedInt.contains ⟨3, 7⟩ 4 = true ∧
    ClosedInt.merge ⟨1, 5⟩ ⟨3, 7⟩ = some (Except.error UnmergableInts.mk) ∧
    ClosedInt.merge ⟨3, 5⟩ ⟨3, 5⟩ = some (Except.error UnmergableInts.mk) := by
  decide

/-- C2: on the embedded test input (intervals `3-5`, `10-14`, `16-20`,
`12-18`, a blank line, queries `1, 5, 8, 11, 17, 32`), `new_from_lines`
succeeds and the count of queries some interval contains is exactly 3:
queries 5, 11 and 17 are contained, queries 1, 8 and 32 are not. -/
theorem test_load_count :
    ∃ p : FoodbProblem,
      FoodbProblem.new_from_lines testLines = some p ∧
      countContained p = 3 ∧
      bruteforce_interval 5 p.intervals = true ∧
      bruteforce_interval 11 p.intervals = true ∧
      bruteforce_interval 17 p.intervals = true ∧
      bruteforce_interval 1 p.intervals = false ∧
      bruteforce_interval 8 p.intervals = false ∧
      bruteforce_interval 32 p.intervals = false := by
  refine ⟨⟨[⟨3, 5⟩, ⟨10, 14⟩, ⟨12, 18⟩, ⟨16, 20⟩], [1, 5, 8, 11, 17, 32]⟩,
    ?_, ?_, ?_, ?_, ?_, ?_, ?_, ?_⟩ <;> decide

/-- C3 counterexample: the claim says `ascii_to_u64` fails exactly when
zero digits are consumed (empty slice or leading non-digit) and otherwise
consumes a maximal digit prefix.  The code instead accepts the empty slice
(returning 0) and rejects `"1a"` (byte 97 is not a digit) outright rather
than consuming the prefix `1`. -/
theorem ascii_claim_counterexample :
    ascii_to_u64 [] = Except.ok 0 ∧
    ascii_to_u64 [49, 97] = Except.error InvalidAsciiU64.mk := by
  decide

/-- C3 (amended): `ascii_to_u64` consumes the entire slice: it fails with
`InvalidAsciiU64` exactly when some byte is not an ASCII digit, and on an
all-digit slice (including the empty one, which yields 0) it returns the
slice's decimal value reduced modulo `2 ^ 64`. -/
theorem ascii_whole_slice (bs : List Nat) :
    (ascii_to_u64 bs = Except.error InvalidAsciiU64.mk ↔ ∃ c ∈ bs, ¬ isDigitByte c) ∧
    ((∀ c ∈ bs, isDigitByte c) → ascii_to_u64 bs = Except.ok (decimalValue bs % U64)) :=
  ⟨ascii_to_u64_error_iff bs, ascii_to_u64_eq_ok bs⟩

/-- Witness for C3: `"123123"` parses to `123123`. -/
theorem ascii_whole_slice_witness :
    ascii_to_u64 [49, 50, 51, 49, 50, 51] = Except.ok 123123 := by
  rw [(ascii_whole_slice [49, 50, 51, 49, 50, 51]).2 (by decide)]
  decide

/-- C4: `ClosedInt::from_str` fails exactly when the text has no `'-'`
separator, or the bytes before the first `'-'` fail numeric parsing, or
the bytes after it fail numeric parsing, or both sides parse to bounds
with `low > high`. -/
theorem from_str_error_iff (txt : List Nat) :
    ClosedInt.from_str txt = Except.error InvalidClosedInt.mk ↔
      (45 ∉ txt ∨
       ascii_to_u64 (txt.takeWhile (fun c => c != 45)) = Except.error InvalidAsciiU64.mk ∨
       ascii_to_u64 ((txt.dropWhile (fun c => c != 45)).tail) = Except.error InvalidAsciiU64.mk ∨
       (∃ lo hi, ascii_to_u64 (txt.takeWhile (fun c => c != 45)) = Except.ok lo ∧
         ascii_to_u64 ((txt.dropWhile (fun c => c != 45)).tail) = Except.ok hi ∧ hi < lo)) := by
  by_cases hm : 45 ∈ txt
  · have hsplit : splitAtDash txt =
        some (txt.takeWhile (fun c => c != 45), (txt.dropWhile (fun c => c != 45)).tail) := by
      rw [splitAtDash_eq, if_pos hm]
    rw [from_str_split txt _ _ hsplit]
    cases hpre : ascii_to_u64 (txt.takeWhile (fun c => c != 45)) with
    | error e =>
      cases e
      simp [hm, hpre]
    | ok lo =>
      cases hpost : ascii_to_u64 ((txt.dropWhile (fun c => c != 45)).tail) with
      | error e =>
        cases e
        simp [hm, hpre, hpost]
      | ok hi =>
        simp [hm, hpre, hpost, new_error_iff]
  · have hsplit : splitAtDash txt = none := by
      rw [splitAtDash_eq, if_neg hm]
    unfold ClosedInt.from_str
    rw [hsplit]
    simp [hm]

/-- Witness for C4: `"35"` holds no `'-'`, so parsing it fails. -/
theorem from_str_error_iff_witness :
    ClosedInt.from_str [51, 53] = Except.error InvalidClosedInt.mk :=
  (from_str_error_iff [51, 53]).mpr (Or.inl (by decide))

/-- C5 counterexample: the claim says the core engine never aborts the
process; but on the single malformed interval line `"a"` (byte 97) the
construction `new_from_lines` panics (modelled as `none`). -/
theorem new_from_lines_abort_eval : FoodbProblem.new_from_lines [[97]] = none := by
  decide

/-- C5 (amended): the leaf parsers report typed errors, but
`new_from_lines` itself aborts the process on malformed input: after any
prefix of non-blank, well-formed interval lines, a non-blank line that
fails interval parsing makes the whole construction panic. -/
theorem new_from_lines_aborts_on_malformed (good : List (List Nat)) (bad : List Nat)
    (rest : List (List Nat))
    (hgood : ∀ l ∈ good, l.length ≠ 0 ∧ ∃ ci, ClosedInt.from_str l = Except.ok ci)
    (hbadlen : bad.length ≠ 0)
    (hbad : ClosedInt.from_str bad = Except.error InvalidClosedInt.mk) :
    FoodbProblem.new_from_lines (good ++ bad :: rest) = none := by
  unfold FoodbProblem.new_from_lines
  rw [parseIntervalLines_aborts bad rest hbadlen hbad good hgood]

/-- Witness for C5: the well-formed line `"3-5"` followed by the malformed
line `"a"` aborts the construction. -/
theorem new_from_lines_aborts_witness :
    FoodbProblem.new_from_lines [[51, 45, 53], [97]] = none :=
  new_from_lines_aborts_on_malformed [[51, 45, 53]] [97] []
    (by
      intro l hl
      rw [List.mem_singleton] at hl
      subst hl
      exact ⟨by decide, ⟨3, 5⟩, by decide⟩)
    (by decide) (by decide)

/-- C6: for all `a ≤ b` (with `b` in `u64` range), parsing the canonical
text `"<a>-<b>"` succeeds, and the resulting interval contains every `v`
in `[a, b]`, does not contain `a - 1` when `a > 0`, and does not contain
`b + 1`. -/
theorem parse_valid_contains (a b : Nat) (hab : a ≤ b) (hb : b < U64) :
    ∃ ci : ClosedInt,
      ClosedInt.from_str (natToAscii a ++ 45 :: natToAscii b) = Except.ok ci ∧
      (∀ v, a ≤ v → v ≤ b → ci.contains v = true) ∧
      (0 < a → ci.contains (a - 1) = false) ∧
      ci.contains (b + 1) = false := by
  refine ⟨⟨a, b⟩, ?_, ?_, ?_, ?_⟩
  · rw [from_str_canonical a b (lt_of_le_of_lt hab hb) hb]
    unfold ClosedInt.new
    rw [if_neg (by omega)]
  · intro v h1 h2
    simp [ClosedInt.contains]
    omega
  · intro ha
    simp [ClosedInt.contains]
    omega
  · simp [ClosedInt.contains]

/-- Witness for C6 at `a = 3`, `b = 5`. -/
theorem parse_valid_contains_witness :
    (3 : Nat) ≤ 5 ∧
    ∃ ci : ClosedInt,
      ClosedInt.from_str (natToAscii 3 ++ 45 :: natToAscii 5) = Except.ok ci ∧
      (∀ v, 3 ≤ v → v ≤ 5 → ci.contains v = true) ∧
      (0 < 3 → ci.contains (3 - 1) = false) ∧
      ci.contains (5 + 1) = false :=
  ⟨by decide, parse_valid_contains 3 5 (by decide) (by decide)⟩

/-- C7: for `u64` bounds, `ClosedInt::new a b` fails with the
invalid-range error and parsing `"<a>-<b>"` fails whenever `b < a`, and
`ClosedInt::new a b` succeeds with exactly the bounds `a`, `b` whenever
`a ≤ b`. -/
theorem new_ok_or_invalid (a b : Nat) (ha : a < U64) (hb : b < U64) :
    (b < a →
      ClosedInt.new a b = Except.error InvalidClosedInt.mk ∧
      ClosedInt.from_str (natToAscii a ++ 45 :: natToAscii b) = Except.error InvalidClosedInt.mk) ∧
    (a ≤ b → ClosedInt.new a b = Except.ok ⟨a, b⟩) := by
  constructor
  · intro hba
    have hnew : ClosedInt.new a b = Except.error InvalidClosedInt.mk := by
      unfold ClosedInt.new
      rw [if_pos hba]
    exact ⟨hnew, by rw [from_str_canonical a b ha hb, hnew]⟩
  · intro hab
    unfold ClosedInt.new
    rw [if_neg (by omega)]

/-- Witness for C7 at `16 > 15` (failure) and `15 ≤ 15` (success). -/
theorem new_ok_or_invalid_witness :
    (ClosedInt.new 16 15 = Except.error InvalidClosedInt.mk ∧
     ClosedInt.from_str (natToAscii 16 ++ 45 :: natToAscii 15) = Except.error InvalidClosedInt.mk) ∧
    ClosedInt.new 15 15 = Except.ok ⟨15, 15⟩ :=
  ⟨(new_ok_or_invalid 16 15 (by decide) (by decide)).1 (by decide),
   (new_ok_or_invalid 15 15 (by decide) (by decide)).2 (by decide)⟩

/-- C8: the `Ord` implementation compares by `low` alone: `x.cmp y` is
`lt` iff `x.low < y.low` (Rust `x < y` means exactly `cmp = Less`), and
two distinct intervals with equal `low` but different `high` compare as
equal. -/
theorem cmp_by_low (x y : ClosedInt) :
    (x.cmp y = Ordering.lt ↔ x.low < y.low) ∧
    (x.low = y.low → x.high ≠ y.high → x.cmp y = Ordering.eq) := by
  unfold ClosedInt.cmp
  constructor
  · by_cases h : x.low < y.low
    · simp [h]
    · by_cases h2 : x.low = y.low
      · simp [h, h2]
      · simp [h, h2]
  · intro h1 _
    rw [if_neg (by omega), if_pos h1]

/-- Witness for C8: `[10,15] < [20,25]`, and `[10,15]` compares equal to
the distinct interval `[10,20]`. -/
theorem cmp_by_low_witness :
    ClosedInt.cmp ⟨10, 15⟩ ⟨20, 25⟩ = Ordering.lt ∧
    ClosedInt.cmp ⟨10, 15⟩ ⟨10, 20⟩ = Ordering.eq :=
  ⟨(cmp_by_low ⟨10, 15⟩ ⟨20, 25⟩).1.mpr (by decide),
   (cmp_by_low ⟨10, 15⟩ ⟨10, 20⟩).2 rfl (by decide)⟩

/-- C9: whenever `new_from_lines` succeeds, the interval collection of the
resulting problem is sorted ascending by the `low` bound (and, the value
being immutable, stays so for the rest of the program). -/
theorem intervals_sorted (lines : List (List Nat)) (p : FoodbProblem)
    (h : FoodbProblem.new_from_lines lines = some p) :
    List.Pairwise (fun x y : ClosedInt => x.low ≤ y.low) p.intervals := by
  unfold FoodbProblem.new_from_lines at h
  split at h
  · exact Option.noConfusion h
  · split at h
    · exact Option.noConfusion h
    · injection h with h2
      subst h2
      exact sortByLow_pairwise _

/-- Witness for C9: the problem built from the embedded test input has its
intervals sorted by `low`. -/
theorem intervals_sorted_witness :
    List.Pairwise (fun x y : ClosedInt => x.low ≤ y.low)
      (FoodbProblem.mk [⟨3, 5⟩, ⟨10, 14⟩, ⟨12, 18⟩, ⟨16, 20⟩] [1, 5, 8, 11, 17, 32]).intervals :=
  intervals_sorted testLines _ (by decide)

/-- C10: inside `merge`, the success branch's internal construction always
meets the `low ≤ high` precondition — `min(self.low, other.low) ≤
max(self.low, other.high)` — so the `.unwrap()` never hits an error and
`merge` never panics (never returns the `none` that models a panic). -/
theorem merge_internal_new_ok (a b : ClosedInt) (ha : a.low ≤ a.high) (hb : b.low ≤ b.high) :
    min a.low b.low ≤ max a.low b.high ∧ ∃ r, a.merge b = some r := by
  constructor
  · omega
  · unfold ClosedInt.merge
    by_cases h : a.high < b.low ∨ b.low < a.high
    · rw [if_pos h]
      exact ⟨_, rfl⟩
    · rw [if_neg h]
      have hnew : ClosedInt.new (min a.low b.low) (max a.low b.high) =
          Except.ok ⟨min a.low b.low, max a.low b.high⟩ := by
        unfold ClosedInt.new
        rw [if_neg (by omega)]
      rw [hnew]
      exact ⟨_, rfl⟩

/-- Witness for C10 at the touching pair `[2,4]`, `[4,9]`. -/
theorem merge_internal_new_ok_witness :
    min 2 4 ≤ max 2 9 ∧ ∃ r, ClosedInt.merge ⟨2, 4⟩ ⟨4, 9⟩ = some r :=
  merge_internal_new_ok ⟨2, 4⟩ ⟨4, 9⟩ (by decide) (by decide)
